import Mathlib

/-!
# Verification of the ungelify MPK archive codec

A shallow embedding of the MPK container codec: the binary struct codec
(`src/mpk/bytes.rs`), the entry content codec (`src/mpk/entry.rs`), the
archive parser and repack engine (`src/mpk/archive.rs`), and the version
check of the older vfs layer (`src/vfs/mpk.rs`).

Modelling conventions:
* a byte is a `Nat` (on-disk integers are little-endian base-256 digit lists);
* byte streams and file contents are `List Nat`;
* `indexmap::IndexMap` is an association list in insertion order whose
  insert replaces the value in place when the key is already present;
  `HashMap` lookups are modelled with the same association list (only
  lookup behaviour of that map is ever observed);
* Rust panics (`expect`, `assert`, failing `try_from`) become `Option.none`;
* zlib deflate/inflate live in the external `flate2` crate, so they are
  passed as opaque functions `compress`/`inflate` on byte lists;
* entry names are kept as raw byte lists (the bytes before the first NUL
  of the 224-byte field); UTF-8 validation is not modelled, which only
  enlarges the set of accepted streams.
-/

set_option maxRecDepth 2500
set_option maxHeartbeats 4000000

namespace Ungelify

abbrev Byte := Nat

/-- Little-endian value of a byte list (bincode fixed-int decoding). -/
def leNat : List Byte → Nat
  | [] => 0
  | b :: rest => b + 256 * leNat rest

/-- Little-endian encoding of `v` on `w` bytes (bincode fixed-int encoding). -/
def leBytes : Nat → Nat → List Byte
  | 0, _ => []
  | w + 1, v => v % 256 :: leBytes w (v / 256)

/-- Read exactly `n` bytes from the front of a stream; `none` when the
stream is too short (bincode decode error, a panic in `read_struct`).
The success test checks the prefix actually read, which is equivalent to
`n ≤ s.length`. -/
def takeExact (n : Nat) (s : List Byte) : Option (List Byte × List Byte) :=
  if (s.take n).length = n then some (s.take n, s.drop n) else none


/-- `MpkHeader` from `src/mpk/bytes.rs`: signature, u16 minor, u16 major,
u64 entry count, then `0x30` bytes of padding — `0x40` bytes in total,
the same layout for both format versions. -/
structure MpkHeader where
  signature : List Byte
  ver_minor : Nat
  ver_major : Nat
  entry_count : Nat
deriving Repr, DecidableEq

/-- `MpkEntryV1` from `src/mpk/bytes.rs` (256 bytes on disk). -/
structure MpkEntryV1 where
  id : Nat
  offset : Nat
  len_compressed : Nat
  len_deflated : Nat
  name : List Byte
deriving Repr, DecidableEq

/-- `MpkEntryV2` from `src/mpk/bytes.rs` (256 bytes on disk). -/
structure MpkEntryV2 where
  cpr_indicator : Nat
  id : Nat
  offset : Nat
  len_compressed : Nat
  len_deflated : Nat
  name : List Byte
deriving Repr, DecidableEq

/-- `MagesEntry` from `src/mpk/entry.rs`. -/
structure MagesEntry where
  id : Nat
  name : List Byte
  offset : Nat
  len_deflated : Nat
  len_compressed : Nat
  cpr_indicator : Nat
deriving Repr, DecidableEq

/-- `entry_name_from_bytes` (`src/mpk/bytes.rs`): take the bytes before the
first NUL; `CStr::from_bytes_until_nul` panics when no NUL exists. -/
def entry_name_from_bytes (name : List Byte) : Option (List Byte) :=
  if 0 ∈ name then some (name.takeWhile (fun b => b ≠ 0)) else none

/-- Decode an `MpkHeader` from the front of a stream. -/
def decodeMpkHeader (s : List Byte) : Option (MpkHeader × List Byte) := do
  let (sig, s) ← takeExact 4 s
  let (minb, s) ← takeExact 2 s
  let (majb, s) ← takeExact 2 s
  let (cntb, s) ← takeExact 8 s
  let (_pad, s) ← takeExact 0x30 s
  some (⟨sig, leNat minb, leNat majb, leNat cntb⟩, s)

/-- Decode an `MpkEntryV1` record (u32 id, u32 offset, u32 sizes, 16 bytes
padding, 224-byte name field). -/
def decodeMpkEntryV1 (s : List Byte) : Option (MpkEntryV1 × List Byte) := do
  let (idb, s) ← takeExact 4 s
  let (offb, s) ← takeExact 4 s
  let (lcb, s) ← takeExact 4 s
  let (ldb, s) ← takeExact 4 s
  let (_pad, s) ← takeExact 16 s
  let (nameb, s) ← takeExact 224 s
  some (⟨leNat idb, leNat offb, leNat lcb, leNat ldb, nameb⟩, s)

/-- Decode an `MpkEntryV2` record (u32 indicator, u32 id, u64 offset,
u64 sizes, 224-byte name field). -/
def decodeMpkEntryV2 (s : List Byte) : Option (MpkEntryV2 × List Byte) := do
  let (cprb, s) ← takeExact 4 s
  let (idb, s) ← takeExact 4 s
  let (offb, s) ← takeExact 8 s
  let (lcb, s) ← takeExact 8 s
  let (ldb, s) ← takeExact 8 s
  let (nameb, s) ← takeExact 224 s
  some (⟨leNat cprb, leNat idb, leNat offb, leNat lcb, leNat ldb, nameb⟩, s)

/-- `impl From<MpkEntryV1> for MagesEntry`: the V1 record carries no
compression indicator, so `cpr_indicator` is set to 0. -/
def MagesEntry.fromV1 (e : MpkEntryV1) : Option MagesEntry := do
  let n ← entry_name_from_bytes e.name
  some ⟨e.id, n, e.offset, e.len_deflated, e.len_compressed, 0⟩

/-- `impl From<MpkEntryV2> for MagesEntry`: the on-disk indicator is kept in
`cpr_indicator` verbatim. -/
def MagesEntry.fromV2 (e : MpkEntryV2) : Option MagesEntry := do
  let n ← entry_name_from_bytes e.name
  some ⟨e.id, n, e.offset, e.len_deflated, e.len_compressed, e.cpr_indicator⟩

/-- `MagesEntry::is_compressed` (`src/mpk/entry.rs`): the sizes disagree.
The stored `cpr_indicator` is not consulted. -/
def MagesEntry.is_compressed (e : MagesEntry) : Bool :=
  e.len_compressed != e.len_deflated

/-- Association-list model of `indexmap::IndexMap`: insertion order is kept,
and inserting an already-present key replaces its value in place, at the
position where the key first entered the map. -/
def insertIM {κ α : Type} [DecidableEq κ] : List (κ × α) → κ → α → List (κ × α)
  | [], k, v => [(k, v)]
  | p :: rest, k, v => if p.1 = k then (k, v) :: rest else p :: insertIM rest k v

/-- Lookup in the association-list map. -/
def getIM {κ α : Type} [DecidableEq κ] (m : List (κ × α)) (k : κ) : Option α :=
  (m.find? (fun p => decide (p.1 = k))).map Prod.snd

/-- `MagesArchive` from `src/mpk/archive.rs`. -/
structure MagesArchive where
  entries : List (Nat × MagesEntry)
  names_to_ids : List (List Byte × Nat)
  is_old_format : Bool
  ver_major : Nat
  ver_minor : Nat
  reported_entry_count : Nat
deriving Repr, DecidableEq

/-- `MagesArchive::MPK_SIG = b"MPK\0"`. -/
def MPK_SIG : List Byte := [77, 80, 75, 0]

/-- `MagesArchive::FIRST_HEADER_OFFSET`: where the entry table starts, for
both format versions. -/
def FIRST_HEADER_OFFSET : Nat := 0x40

/-- One iteration step of the parse loop in `MagesArchive::build`: decode a
record with the version-appropriate layout and convert it to a `MagesEntry`. -/
def decodeOneEntry (is_old_format : Bool) (s : List Byte) :
    Option (MagesEntry × List Byte) :=
  if is_old_format then do
    let (v1, s) ← decodeMpkEntryV1 s
    let e ← MagesEntry.fromV1 v1
    some (e, s)
  else do
    let (v2, s) ← decodeMpkEntryV2 s
    let e ← MagesEntry.fromV2 v2
    some (e, s)

/-- The entry loop of `MagesArchive::build`: decode `entry_count` records in
sequence, silently skipping any record whose offset is 0 and inserting the
rest into the entry map and the name map. -/
def buildLoop (is_old_format : Bool) :
    Nat → List Byte → List (Nat × MagesEntry) → List (List Byte × Nat) →
    Option (List (Nat × MagesEntry) × List (List Byte × Nat))
  | 0, _, entries, names => some (entries, names)
  | n + 1, s, entries, names => do
    let (entry, s) ← decodeOneEntry is_old_format s
    if entry.offset = 0 then
      buildLoop is_old_format n s entries names
    else
      buildLoop is_old_format n s (insertIM entries entry.id entry)
        (insertIM names entry.name entry.id)

/-- `MagesArchive::build` (`src/mpk/archive.rs`): read the header, assert the
signature, pick the layout from `ver_major == 1`, then run the entry loop.
No version validation happens here: any major version other than 1 is
parsed with the V2 layout. -/
def MagesArchive.build (s : List Byte) : Option MagesArchive := do
  let (header, s) ← decodeMpkHeader s
  if header.signature = MPK_SIG then
    let is_old_format := header.ver_major == 1
    let (entries, names) ← buildLoop is_old_format header.entry_count s [] []
    some { entries := entries, names_to_ids := names,
           is_old_format := is_old_format,
           ver_major := header.ver_major, ver_minor := header.ver_minor,
           reported_entry_count := header.entry_count }
  else none

/-- `MagesArchive::iter`: the entries in insertion order. -/
def MagesArchive.iter (a : MagesArchive) : List MagesEntry :=
  a.entries.map Prod.snd

/-- `MagesArchive::get_entry_by_id`. -/
def MagesArchive.get_entry_by_id (a : MagesArchive) (id : Nat) :
    Option MagesEntry :=
  getIM a.entries id

/-- `MagesArchive::get_entry_by_name`: a plain map lookup with the queried
string, followed by the id lookup. -/
def MagesArchive.get_entry_by_name (a : MagesArchive) (name : List Byte) :
    Option MagesEntry :=
  (getIM a.names_to_ids name).bind fun id => a.get_entry_by_id id

/-- `MpkVersion::build` from `src/vfs/mpk.rs`: the older vfs layer rejects
any major version other than 1 or 2. -/
structure MpkVersion where
  major : Nat
  minor : Nat
  is_old_format : Bool
deriving Repr, DecidableEq

def MpkVersion.build (major minor : Nat) : Option MpkVersion :=
  if major ≠ 1 ∧ major ≠ 2 then none
  else some ⟨major, minor, major == 1⟩

/-! ## The repack sink

The repack engine writes to a `Write + Seek` sink opened with
`File::create` (an empty file).  Writing at a position past the end of the
file leaves a zero-filled hole, as on a real file. -/

/-- Replace the bytes of `d` starting at `pos` with `bs`, zero-filling any
gap between the end of `d` and `pos`. -/
def overwriteAt (d : List Byte) (pos : Nat) (bs : List Byte) : List Byte :=
  d.take pos ++ List.replicate (pos - d.length) 0 ++ bs ++ d.drop (pos + bs.length)

/-- A seekable byte sink: file contents plus the current write position. -/
structure Sink where
  data : List Byte
  pos : Nat
deriving Repr, DecidableEq

/-- Write bytes at the current position and advance it. -/
def Sink.write (w : Sink) (bs : List Byte) : Sink :=
  ⟨overwriteAt w.data w.pos bs, w.pos + bs.length⟩

/-- `seek(SeekFrom::Start(p))`. -/
def Sink.seek (w : Sink) (p : Nat) : Sink :=
  ⟨w.data, p⟩

/-- `write_alignment_padding` (`src/mpk/bytes.rs`): return without writing
when `pos` is 2048-aligned, otherwise write zeros up to the next 2048
boundary. -/
def write_alignment_padding (w : Sink) (pos : Nat) : Sink :=
  if pos % 2048 = 0 then w
  else w.write (List.replicate (2048 - pos % 2048) 0)

/-! ## Entry content codec (`src/mpk/entry.rs`) -/

/-- `MagesEntry::extract`: take `len_compressed` bytes from the source
(already positioned at the entry's offset) and inflate them when the entry
is compressed.  `inflate` stands for the `flate2` zlib decoder. -/
def MagesEntry.extract (e : MagesEntry) (inflate : List Byte → List Byte)
    (source : List Byte) : List Byte :=
  let raw := source.take e.len_compressed
  if e.is_compressed then inflate raw else raw

/-- `MagesEntry::repack`: copy the whole source into the sink, deflating when
the entry is compressed (`compress` stands for the `flate2` zlib encoder at
the default level).  The returned count is what `io::copy` reports — the
bytes read from the source — which in the compressed branch is the
uncompressed length, not the number of deflated bytes that reached the
sink. -/
def MagesEntry.repack (e : MagesEntry) (compress : List Byte → List Byte)
    (source : List Byte) (w : Sink) (write_padding : Bool) : Sink × Nat :=
  let bytes_written := source.length
  let w := if e.is_compressed then w.write (compress source) else w.write source
  let w := if write_padding then write_alignment_padding w bytes_written else w
  (w, bytes_written)

/-! ## Repack engine (`src/mpk/archive.rs`) -/

/-- Modelled from the spec: `MagesEntry::updated` is called by
`repack_from_file` and `copy_original_entry` but its definition is not among
the source files.  Per the spec's repack algorithm, the new entry keeps its
id and name, records the current sink position as the new offset, the bytes
written as the new `size_stored` (`len_compressed`), and the source length
as the new `size_uncompressed` (`len_deflated`). -/
def MagesEntry.updated (e : MagesEntry) (new_offset len_deflated len_compressed : Nat) :
    MagesEntry :=
  { e with offset := new_offset, len_deflated := len_deflated,
           len_compressed := len_compressed }

/-- `impl From<&MagesArchive> for MpkHeader` followed by `write_struct`:
the encoded `0x40`-byte archive header.  The entry count written out is the
original `reported_entry_count`. -/
def encodeMpkHeader (a : MagesArchive) : List Byte :=
  MPK_SIG ++ leBytes 2 a.ver_minor ++ leBytes 2 a.ver_major ++
    leBytes 8 a.reported_entry_count ++ List.replicate 0x30 0

/-- `MagesArchive::write_archive_header`. -/
def MagesArchive.write_archive_header (a : MagesArchive) (w : Sink) : Sink :=
  w.write (encodeMpkHeader a)

/-- `copy_name_bytes` (`src/mpk/bytes.rs`): copy the name into a zeroed
224-byte buffer; the slice copy panics when the name is longer than 224. -/
def copy_name_bytes (name : List Byte) : Option (List Byte) :=
  if name.length ≤ 224 then some (name ++ List.replicate (224 - name.length) 0)
  else none

/-- `impl From<&MagesEntry> for MpkEntryV1` and its encoding: the
`u32::try_from` conversions panic when a field exceeds the u32 range. -/
def encodeMpkEntryV1 (e : MagesEntry) : Option (List Byte) := do
  let nameb ← copy_name_bytes e.name
  if e.offset < 2 ^ 32 ∧ e.len_compressed < 2 ^ 32 ∧ e.len_deflated < 2 ^ 32 then
    some (leBytes 4 e.id ++ leBytes 4 e.offset ++ leBytes 4 e.len_compressed ++
      leBytes 4 e.len_deflated ++ List.replicate 16 0 ++ nameb)
  else none

/-- `impl From<&MagesEntry> for MpkEntryV2` and its encoding. -/
def encodeMpkEntryV2 (e : MagesEntry) : Option (List Byte) := do
  let nameb ← copy_name_bytes e.name
  some (leBytes 4 e.cpr_indicator ++ leBytes 4 e.id ++ leBytes 8 e.offset ++
    leBytes 8 e.len_compressed ++ leBytes 8 e.len_deflated ++ nameb)

/-- `MagesArchive::build_repack_map`: collect the replacement files into a
map keyed by base file name (a later duplicate overwrites an earlier one).
A replacement is modelled as a pair of base name and file contents. -/
def build_repack_map (rpk_paths : List (List Byte × List Byte)) :
    List (List Byte × List Byte) :=
  rpk_paths.foldl (fun m p => insertIM m p.1 p.2) []

/-- `MagesArchive::repack_from_file`: stream the replacement file through
`MagesEntry::repack` (no trailing padding is requested at this call site)
and record the metadata via `updated` — the file length as the new
`len_deflated` and the count returned by `repack` as the new
`len_compressed`. -/
def MagesArchive.repack_from_file (compress : List Byte → List Byte) (w : Sink)
    (entry : MagesEntry) (new_offset : Nat) (content : List Byte) :
    Sink × MagesEntry :=
  let src_len := content.length
  let (w, bytes_written) := entry.repack compress content w false
  (w, entry.updated new_offset src_len bytes_written)

/-- `MagesArchive::copy_original_entry`: a bounded raw copy of the entry's
stored bytes from the original archive (`take(len_compressed)`), keeping
`len_deflated` and recording the copied count as the new `len_compressed`. -/
def MagesArchive.copy_original_entry (orig : List Byte) (w : Sink)
    (entry : MagesEntry) (new_offset : Nat) : Sink × MagesEntry :=
  let content := (orig.drop entry.offset).take entry.len_compressed
  let w := w.write content
  (w, entry.updated new_offset entry.len_deflated content.length)

/-- `MagesArchive::repack_entry`: pad the sink to the next 2048 boundary
based on the current position, record the position as the new offset, then
either replace from a matching file or copy the original bytes. -/
def MagesArchive.repack_entry (compress : List Byte → List Byte)
    (orig : List Byte) (w : Sink) (rpk_map : List (List Byte × List Byte))
    (entry : MagesEntry) : Sink × MagesEntry :=
  let w := write_alignment_padding w w.pos
  let new_entry_offset := w.pos
  match getIM rpk_map entry.name with
  | some content =>
      MagesArchive.repack_from_file compress w entry new_entry_offset content
  | none =>
      MagesArchive.copy_original_entry orig w entry new_entry_offset

/-- `MagesArchive::write_entry_headers`: encode each new entry with the
version-appropriate record layout and write them in sequence. -/
def MagesArchive.write_entry_headers (a : MagesArchive) (w : Sink)
    (rpk_entries : List (Nat × MagesEntry)) : Option Sink :=
  rpk_entries.foldlM
    (fun w p => do
      let bs ← if a.is_old_format then encodeMpkEntryV1 p.2 else encodeMpkEntryV2 p.2
      some (w.write bs))
    w

/-- One step of the entry loop in `MagesArchive::repack_entries`: repack the
next entry against the current sink and collect `(entry.id(), new_entry)`
into the new entry map. -/
def repackStep (compress : List Byte → List Byte) (orig : List Byte)
    (rpk_map : List (List Byte × List Byte))
    (acc : Sink × List (Nat × MagesEntry)) (p : Nat × MagesEntry) :
    Sink × List (Nat × MagesEntry) :=
  let (w, new_entry) := MagesArchive.repack_entry compress orig acc.1 rpk_map p.2
  (w, insertIM acc.2 p.2.id new_entry)

/-- `MagesArchive::repack_entries`: write the archive header, seek to the
first entry's original offset, re-stream every entry in order (replaced or
copied), then seek back to `FIRST_HEADER_OFFSET` and write the new entry
table.  Indexing `self.entries[0]` panics on an empty archive. -/
def MagesArchive.repack_entries (a : MagesArchive)
    (compress : List Byte → List Byte) (orig : List Byte) (w : Sink)
    (rpk_paths : List (List Byte × List Byte)) :
    Option (Sink × MagesArchive) := do
  let rpk_map := build_repack_map rpk_paths
  let w := a.write_archive_header w
  let first ← a.entries.head?
  let w := w.seek first.2.offset
  let (w, rpk_entries) := a.entries.foldl (repackStep compress orig rpk_map) (w, [])
  let w := w.seek FIRST_HEADER_OFFSET
  let w ← a.write_entry_headers w rpk_entries
  some (w, { a with entries := rpk_entries })

/-! ## Record-list view of the parse loop

`decodeRecords` decodes the same sequence of records the parse loop walks,
but keeps all of them (including the zero-offset ones the loop discards),
so that properties of `build` can be stated against the on-disk record
list. -/

def decodeRecords (is_old_format : Bool) :
    Nat → List Byte → Option (List MagesEntry × List Byte)
  | 0, s => some ([], s)
  | n + 1, s => do
    let (e, s) ← decodeOneEntry is_old_format s
    let (rest, s') ← decodeRecords is_old_format n s
    some (e :: rest, s')

/-- The records with nonzero offset: exactly the ones the parse loop keeps. -/
def survivors (rs : List MagesEntry) : List MagesEntry :=
  rs.filter (fun e => e.offset ≠ 0)

/-- Insert a key into a key list the way `insertIM` does: keep it where it
already is, or append it. -/
def insertKey {κ : Type} [DecidableEq κ] (ks : List κ) (k : κ) : List κ :=
  if k ∈ ks then ks else ks ++ [k]

/-- The key order produced by folding `insertIM` over a record list:
each id at the position of its first appearance. -/
def firstAppearanceIds (rs : List MagesEntry) : List Nat :=
  rs.foldl (fun ks e => insertKey ks e.id) []

/-- The record whose fields win for a given id: the last one with that id. -/
def lastWithId (rs : List MagesEntry) (k : Nat) : Option MagesEntry :=
  rs.reverse.find? (fun e => decide (e.id = k))

/-! ## Fixture archives -/

/-- `"a.txt"` as bytes. -/
def nameATxt : List Byte := [97, 46, 116, 120, 116]

/-- `"Bye!!"` as bytes. -/
def byeBytes : List Byte := [66, 121, 101, 33, 33]

/-- The spec's fixture: a V1 archive, `entry_count = 1`, single entry
`{id 0, offset 0x40, size_stored 10, size_uncompressed 10, name "a.txt"}`
followed by the 10 bytes `"HelloWorld"`. -/
def fixtureV1 : List Byte :=
  MPK_SIG ++ leBytes 2 0 ++ leBytes 2 1 ++ leBytes 8 1 ++ List.replicate 0x30 0
    ++ leBytes 4 0 ++ leBytes 4 0x40 ++ leBytes 4 10 ++ leBytes 4 10
    ++ List.replicate 16 0 ++ (nameATxt ++ List.replicate 219 0)
    ++ [72, 101, 108, 108, 111, 87, 111, 114, 108, 100]

/-- The entry of `fixtureV1` as the parser represents it. -/
def entryA : MagesEntry := ⟨0, nameATxt, 0x40, 10, 10, 0⟩

/-- The parsed model of `fixtureV1`. -/
def fixtureArchiveA : MagesArchive := ⟨[(0, entryA)], [(nameATxt, 0)], true, 1, 0, 1⟩

/-- A canonically laid out variant of the fixture whose entry data sits at
the 2048-aligned offset 0x800, with zero padding between the entry table
and the data. -/
def fixtureV1Aligned : List Byte :=
  MPK_SIG ++ leBytes 2 0 ++ leBytes 2 1 ++ leBytes 8 1 ++ List.replicate 0x30 0
    ++ leBytes 4 0 ++ leBytes 4 0x800 ++ leBytes 4 10 ++ leBytes 4 10
    ++ List.replicate 16 0 ++ (nameATxt ++ List.replicate 219 0)
    ++ List.replicate (0x800 - 0x140) 0
    ++ [72, 101, 108, 108, 111, 87, 111, 114, 108, 100]

/-- The entry of `fixtureV1Aligned`. -/
def entryB : MagesEntry := ⟨0, nameATxt, 0x800, 10, 10, 0⟩

/-- The parsed model of `fixtureV1Aligned`. -/
def fixtureArchiveB : MagesArchive := ⟨[(0, entryB)], [(nameATxt, 0)], true, 1, 0, 1⟩

/-- A stream with a valid signature and major version 3 (entry count 0). -/
def major3Stream : List Byte :=
  MPK_SIG ++ leBytes 2 0 ++ leBytes 2 3 ++ leBytes 8 0 ++ List.replicate 0x30 0

/-- The result of repacking the fixture archive, replacing `"a.txt"` with
the 5-byte file `"Bye!!"` (`compress` instantiated with `id`; the fixture
entry is not compressed, so it is never invoked). -/
def repackedA : Option (Sink × MagesArchive) :=
  (MagesArchive.build fixtureV1).bind fun a =>
    a.repack_entries id fixtureV1 ⟨[], 0⟩ [(nameATxt, byeBytes)]

/-- Repacking the fixture archive with an empty replacement list. -/
def repackedA0 : Option (Sink × MagesArchive) :=
  (MagesArchive.build fixtureV1).bind fun a =>
    a.repack_entries id fixtureV1 ⟨[], 0⟩ []

/-- Repacking the aligned fixture archive with an empty replacement list. -/
def repackedB : Option (Sink × MagesArchive) :=
  (MagesArchive.build fixtureV1Aligned).bind fun a =>
    a.repack_entries id fixtureV1Aligned ⟨[], 0⟩ []

/-- The encoded archive header of the fixture archive (0x40 bytes). -/
def headerA : List Byte := encodeMpkHeader fixtureArchiveA

/-- The entry after replacing with the 5-byte `"Bye!!"`: data moved to the
2048-aligned offset 0x800, both sizes 5. -/
def newEntryBye : MagesEntry := ⟨0, nameATxt, 0x800, 5, 5, 0⟩

/-- The encoded V1 entry record for `newEntryBye`. -/
def recBye : List Byte :=
  leBytes 4 0 ++ leBytes 4 0x800 ++ leBytes 4 5 ++ leBytes 4 5
    ++ List.replicate 16 0 ++ (nameATxt ++ List.replicate 219 0)

/-- The archive returned by the `"Bye!!"` repack of the fixture. -/
def archBye : MagesArchive := ⟨[(0, newEntryBye)], [(nameATxt, 0)], true, 1, 0, 1⟩

/-- The 10 bytes `copy_original_entry` copies for the fixture entry: the
region at offset 0x40 of `fixtureV1`, which is the start of its own entry
record (the fixture places the entry data inside the entry table). -/
def copiedA : List Byte := [0, 0, 0, 0, 64, 0, 0, 0, 10, 0]

/-- The fixture entry after an empty-replacement repack: data moved to
0x800, sizes kept. -/
def newEntryCopy : MagesEntry := ⟨0, nameATxt, 0x800, 10, 10, 0⟩

/-- The encoded V1 entry record for `newEntryCopy`. -/
def recCopy : List Byte :=
  leBytes 4 0 ++ leBytes 4 0x800 ++ leBytes 4 10 ++ leBytes 4 10
    ++ List.replicate 16 0 ++ (nameATxt ++ List.replicate 219 0)

/-- The archive returned by the empty-replacement repack of the fixture. -/
def archCopy : MagesArchive := ⟨[(0, newEntryCopy)], [(nameATxt, 0)], true, 1, 0, 1⟩

/-- The 10 bytes `"HelloWorld"`. -/
def helloBytes : List Byte := [72, 101, 108, 108, 111, 87, 111, 114, 108, 100]

/-! ## Counterexample inputs for the claims -/

/-- Refinement-side parser following the words of the claim about header
layout: a u32 entry count and a table at 0x40 for V1, a u64 entry count,
a header padded to 0x44 and a table at 0x44 for V2, and no archive for any
other major version.  Compare with `MagesArchive.build`, which reads a u64
count and starts the table at 0x40 for both versions. -/
def buildClaimC3 (s : List Byte) : Option MagesArchive := do
  let (sig, s1) ← takeExact 4 s
  let (minb, s2) ← takeExact 2 s1
  let (majb, s3) ← takeExact 2 s2
  if sig = MPK_SIG then
    let major := leNat majb
    if major = 1 then
      let (cntb, s4) ← takeExact 4 s3
      let (_pad, s5) ← takeExact (0x40 - 12) s4
      let (entries, names) ← buildLoop true (leNat cntb) s5 [] []
      some ⟨entries, names, true, major, leNat minb, leNat cntb⟩
    else if major = 2 then
      let (cntb, s4) ← takeExact 8 s3
      let (_pad, s5) ← takeExact (0x44 - 16) s4
      let (entries, names) ← buildLoop false (leNat cntb) s5 [] []
      some ⟨entries, names, false, major, leNat minb, leNat cntb⟩
    else none
  else none

/-- A V2 stream whose single entry record sits at 0x40 with id 7 (and a
field of value 2048 where the claimed 0x44-based layout reads the id). -/
def c3v2Stream : List Byte :=
  MPK_SIG ++ leBytes 2 0 ++ leBytes 2 2 ++ leBytes 8 1 ++ List.replicate 0x30 0
    ++ leBytes 4 5 ++ leBytes 4 7 ++ leBytes 8 0x800 ++ leBytes 8 3 ++ leBytes 8 3
    ++ ([120] ++ List.replicate 223 0)
    ++ List.replicate 4 0

/-- A V1 stream whose count field reads 1 as a u32 but `1 + 2^32` as a u64
(the four bytes after the u32 count are not all zero). -/
def c3v1Stream : List Byte :=
  MPK_SIG ++ leBytes 2 0 ++ leBytes 2 1 ++ (leBytes 4 1 ++ leBytes 4 1)
    ++ List.replicate 0x30 0
    ++ leBytes 4 9 ++ leBytes 4 0x40 ++ leBytes 4 10 ++ leBytes 4 10
    ++ List.replicate 16 0 ++ ([120] ++ List.replicate 223 0)

/-- A V2 stream whose entry has a nonzero compression indicator but equal
stored and uncompressed sizes. -/
def c4Stream : List Byte :=
  MPK_SIG ++ leBytes 2 0 ++ leBytes 2 2 ++ leBytes 8 1 ++ List.replicate 0x30 0
    ++ leBytes 4 1 ++ leBytes 4 0 ++ leBytes 8 0x800 ++ leBytes 8 10 ++ leBytes 8 10
    ++ ([120] ++ List.replicate 223 0)

/-- A V1 stream with two records carrying the same id 5 (both offsets
nonzero). -/
def dupIdStream : List Byte :=
  MPK_SIG ++ leBytes 2 0 ++ leBytes 2 1 ++ leBytes 8 2 ++ List.replicate 0x30 0
    ++ leBytes 4 5 ++ leBytes 4 0x40 ++ leBytes 4 10 ++ leBytes 4 10
    ++ List.replicate 16 0 ++ ([97] ++ List.replicate 223 0)
    ++ leBytes 4 5 ++ leBytes 4 0x50 ++ leBytes 4 7 ++ leBytes 4 7
    ++ List.replicate 16 0 ++ ([98] ++ List.replicate 223 0)

/-- The records of `dupIdStream` in on-disk order. -/
def dupIdRecords : List MagesEntry :=
  [⟨5, [97], 0x40, 10, 10, 0⟩, ⟨5, [98], 0x50, 7, 7, 0⟩]

/-- The archive `build` produces for `dupIdStream`. -/
def dupIdArchive : MagesArchive :=
  ⟨[(5, ⟨5, [98], 0x50, 7, 7, 0⟩)], [([97], 5), ([98], 5)], true, 1, 0, 2⟩

/-- A V1 stream reporting two entries whose second record is all zeros. -/
def zeroRecStream : List Byte :=
  MPK_SIG ++ leBytes 2 0 ++ leBytes 2 1 ++ leBytes 8 2 ++ List.replicate 0x30 0
    ++ leBytes 4 0 ++ leBytes 4 0x40 ++ leBytes 4 10 ++ leBytes 4 10
    ++ List.replicate 16 0 ++ ([97] ++ List.replicate 223 0)
    ++ List.replicate 256 0

/-- The records of `zeroRecStream` in on-disk order. -/
def zeroRecRecords : List MagesEntry :=
  [⟨0, [97], 0x40, 10, 10, 0⟩, ⟨0, [], 0, 0, 0, 0⟩]

/-- The archive `build` produces for `zeroRecStream`. -/
def zeroRecArchive : MagesArchive :=
  ⟨[(0, ⟨0, [97], 0x40, 10, 10, 0⟩)], [([97], 0)], true, 1, 0, 2⟩

/-- `"b.txt"` as bytes: matches no entry of the fixture archive. -/
def nameBTxt : List Byte := [98, 46, 116, 120, 116]

/-- `"A.TXT"` as bytes: a letter-case variant of the fixture entry's name. -/
def nameUpper : List Byte := [65, 46, 84, 88, 84]

/-- A compressed entry (stored size 3, uncompressed size 10). -/
def cexEntry : MagesEntry := ⟨0, [], 0, 10, 3, 0⟩

/-- A V2 record with a nonzero indicator and equal sizes. -/
def v2cex : MpkEntryV2 := ⟨1, 0, 0x800, 10, 10, [120, 0]⟩

/-- The `MagesEntry` that `v2cex` converts to. -/
def v2cexEntry : MagesEntry := ⟨0, [120], 0x800, 10, 10, 1⟩

/-- A V1 record with equal sizes. -/
def v1cex : MpkEntryV1 := ⟨3, 0x40, 10, 10, [97, 0]⟩

/-- The `MagesEntry` that `v1cex` converts to. -/
def v1cexEntry : MagesEntry := ⟨3, [97], 0x40, 10, 10, 0⟩

/-- `takeExact` succeeds exactly on streams holding at least `n` bytes. -/
theorem takeExact_eq (n : Nat) (s : List Byte) :
    takeExact n s = if n ≤ s.length then some (s.take n, s.drop n) else none := by
  unfold takeExact
  rcases Nat.le_total n s.length with h | h
  · rw [if_pos (by simp [List.length_take]; omega), if_pos h]
  · by_cases h2 : n ≤ s.length
    · rw [if_pos (by simp [List.length_take]; omega), if_pos h2]
    · rw [if_neg (by simp [List.length_take]; omega), if_neg h2]

/-! ## Association-list map lemmas -/

theorem getIM_cons {κ α : Type} [DecidableEq κ] (p : κ × α) (m : List (κ × α)) (k : κ) :
    getIM (p :: m) k = if p.1 = k then some p.2 else getIM m k := by
  by_cases h : p.1 = k <;> simp [getIM, List.find?_cons, h]

theorem getIM_insertIM {κ α : Type} [DecidableEq κ] (m : List (κ × α)) (k k' : κ) (v : α) :
    getIM (insertIM m k v) k' = if k' = k then some v else getIM m k' := by
  induction m with
  | nil =>
    by_cases h : k' = k
    · simp [insertIM, getIM, List.find?_cons, h]
    · have h2 : ¬ (k = k') := fun h' => h h'.symm
      simp [insertIM, getIM, List.find?_cons, h, h2]
  | cons p rest ih =>
    by_cases hp : p.1 = k
    · rw [show insertIM (p :: rest) k v = (k, v) :: rest by simp [insertIM, hp]]
      rw [getIM_cons, getIM_cons]
      by_cases h : k' = k
      · simp [h]
      · have h2 : ¬ (k = k') := fun h' => h h'.symm
        have h3 : ¬ (p.1 = k') := fun h' => h2 (hp.symm.trans h')
        simp [h, h2, h3]
    · rw [show insertIM (p :: rest) k v = p :: insertIM rest k v by simp [insertIM, hp]]
      rw [getIM_cons, getIM_cons, ih]
      by_cases hk : p.1 = k'
      · have h2 : ¬ (k' = k) := fun h => hp (hk.trans h)
        simp [hk, h2]
      · simp [hk]

theorem keys_insertIM {κ α : Type} [DecidableEq κ] (m : List (κ × α)) (k : κ) (v : α) :
    (insertIM m k v).map Prod.fst = insertKey (m.map Prod.fst) k := by
  induction m with
  | nil => simp [insertIM, insertKey]
  | cons p rest ih =>
    by_cases hp : p.1 = k
    · rw [show insertIM (p :: rest) k v = (k, v) :: rest by simp [insertIM, hp]]
      have : k ∈ (p :: rest).map Prod.fst := by simp [hp.symm]
      simp [insertKey, this, hp]
    · rw [show insertIM (p :: rest) k v = p :: insertIM rest k v by simp [insertIM, hp]]
      simp only [List.map_cons, ih, insertKey]
      have hne : ¬ (k = p.1) := fun h => hp h.symm
      by_cases hk : k ∈ rest.map Prod.fst
      · simp [hk, hne]
      · simp [hk, hne]

theorem mem_insertIM {κ α : Type} [DecidableEq κ] {m : List (κ × α)} {k : κ} {v : α}
    {q : κ × α} (hq : q ∈ insertIM m k v) : q ∈ m ∨ q = (k, v) := by
  induction m with
  | nil => simp [insertIM] at hq; right; exact hq
  | cons p rest ih =>
    by_cases hp : p.1 = k
    · rw [show insertIM (p :: rest) k v = (k, v) :: rest by simp [insertIM, hp]] at hq
      rcases List.mem_cons.mp hq with h1 | h1
      · right; exact h1
      · left; exact List.mem_cons_of_mem _ h1
    · rw [show insertIM (p :: rest) k v = p :: insertIM rest k v by simp [insertIM, hp]] at hq
      rcases List.mem_cons.mp hq with h1 | h1
      · left; simp [h1]
      · rcases ih h1 with h2 | h2
        · left; exact List.mem_cons_of_mem _ h2
        · right; exact h2

/-! ## Lemmas about the parse-loop folds -/

theorem keys_foldl_insertIM (rs : List MagesEntry) (m : List (Nat × MagesEntry)) :
    (rs.foldl (fun m e => insertIM m e.id e) m).map Prod.fst
      = rs.foldl (fun ks e => insertKey ks e.id) (m.map Prod.fst) := by
  induction rs generalizing m with
  | nil => rfl
  | cons e rest ih => simp only [List.foldl_cons, ih, keys_insertIM]

theorem getIM_foldl_insertIM (rs : List MagesEntry) (m : List (Nat × MagesEntry)) (k : Nat) :
    getIM (rs.foldl (fun m e => insertIM m e.id e) m) k
      = match lastWithId rs k with
        | some e => some e
        | none => getIM m k := by
  induction rs generalizing m with
  | nil => simp only [List.foldl_nil, lastWithId, List.reverse_nil, List.find?_nil]
  | cons e rest ih =>
    simp only [List.foldl_cons, ih]
    unfold lastWithId
    simp only [List.reverse_cons, List.find?_append]
    cases hfind : rest.reverse.find? (fun x => decide (x.id = k)) with
    | some e' => simp
    | none =>
      simp only [Option.none_orElse]
      rw [getIM_insertIM]
      by_cases h : e.id = k
      · rw [List.find?_cons_of_pos _ (by simpa using h), if_pos h.symm]
        simp [Option.none_or]
      · rw [List.find?_cons_of_neg _ (by simpa using h), List.find?_nil,
          if_neg (fun h' => h h'.symm)]
        simp [Option.none_or]

theorem mem_foldl_insertIM {rs : List MagesEntry} {m : List (Nat × MagesEntry)}
    {q : Nat × MagesEntry}
    (hq : q ∈ rs.foldl (fun m e => insertIM m e.id e) m) :
    q ∈ m ∨ ∃ e ∈ rs, q = (e.id, e) := by
  induction rs generalizing m with
  | nil => left; exact hq
  | cons e rest ih =>
    simp only [List.foldl_cons] at hq
    rcases ih hq with h1 | h1
    · rcases mem_insertIM h1 with h2 | h2
      · left; exact h2
      · right; exact ⟨e, List.mem_cons_self _ _, h2⟩
    · obtain ⟨e', he', hq'⟩ := h1
      right; exact ⟨e', List.mem_cons_of_mem _ he', hq'⟩

theorem nodup_foldl_insertKey {κ : Type} [DecidableEq κ] (ids : List κ) (ks : List κ)
    (h : ks.Nodup) : (ids.foldl insertKey ks).Nodup := by
  induction ids generalizing ks with
  | nil => exact h
  | cons i rest ih =>
    simp only [List.foldl_cons]
    apply ih
    unfold insertKey
    by_cases hi : i ∈ ks
    · simpa [hi] using h
    · simp [hi, List.nodup_append, h]

theorem length_foldl_insertKey {κ : Type} [DecidableEq κ] (ids ks : List κ)
    (h1 : ids.Nodup) (h2 : ∀ k ∈ ids, k ∉ ks) :
    (ids.foldl insertKey ks).length = ks.length + ids.length := by
  induction ids generalizing ks with
  | nil => simp
  | cons i rest ih =>
    have hi : i ∉ ks := h2 i (List.mem_cons_self _ _)
    have hnot : ∀ k ∈ rest, k ∉ ks ++ [i] := by
      intro k hk
      simp only [List.mem_append, List.mem_singleton]
      rintro (hks | rfl)
      · exact h2 k (List.mem_cons_of_mem _ hk) hks
      · exact (List.nodup_cons.mp h1).1 hk
    simp only [List.foldl_cons]
    rw [show insertKey ks i = ks ++ [i] by simp [insertKey, hi]]
    rw [ih (ks ++ [i]) (List.Nodup.of_cons h1) hnot]
    simp only [List.length_append, List.length_cons, List.length_nil]
    omega

/-! ## The parse loop against the record list -/

theorem decodeRecords_length {f : Bool} {n : Nat} {s : List Byte}
    {rs : List MagesEntry} {rest : List Byte}
    (h : decodeRecords f n s = some (rs, rest)) : rs.length = n := by
  induction n generalizing s rs rest with
  | zero =>
    simp only [decodeRecords, Option.some.injEq, Prod.mk.injEq] at h
    rw [← h.1]
    rfl
  | succ n ih =>
    simp only [decodeRecords] at h
    cases hd : decodeOneEntry f s with
    | none => rw [hd] at h; simp at h
    | some p =>
      obtain ⟨e, s'⟩ := p
      rw [hd] at h
      simp only [Option.bind_eq_bind, Option.some_bind] at h
      cases hr : decodeRecords f n s' with
      | none => rw [hr] at h; simp at h
      | some q =>
        obtain ⟨rest', s''⟩ := q
        rw [hr] at h
        simp only [Option.some_bind, Option.some.injEq, Prod.mk.injEq] at h
        rw [← h.1]
        simp [ih hr]

theorem buildLoop_eq (f : Bool) (n : Nat) (s : List Byte)
    (entries : List (Nat × MagesEntry)) (names : List (List Byte × Nat)) :
    buildLoop f n s entries names
      = (decodeRecords f n s).map (fun p =>
          ((survivors p.1).foldl (fun m e => insertIM m e.id e) entries,
           (survivors p.1).foldl (fun m e => insertIM m e.name e.id) names)) := by
  induction n generalizing s entries names with
  | zero => simp [buildLoop, decodeRecords, survivors]
  | succ n ih =>
    simp only [buildLoop, decodeRecords]
    cases hd : decodeOneEntry f s with
    | none => simp
    | some p =>
      obtain ⟨e, s'⟩ := p
      simp only [Option.bind_eq_bind, Option.some_bind]
      by_cases hoff : e.offset = 0
      · rw [if_pos hoff, ih]
        cases hr : decodeRecords f n s' <;>
          simp [survivors, List.filter_cons, hoff]
      · rw [if_neg hoff, ih]
        cases hr : decodeRecords f n s' <;>
          simp [survivors, List.filter_cons, hoff]

theorem build_elim {s : List Byte} {hd : MpkHeader} {rest : List Byte}
    {a : MagesArchive}
    (hh : decodeMpkHeader s = some (hd, rest))
    (hb : MagesArchive.build s = some a) :
    hd.signature = MPK_SIG ∧ a.is_old_format = (hd.ver_major == 1) ∧
    a.ver_major = hd.ver_major ∧ a.reported_entry_count = hd.entry_count ∧
    buildLoop a.is_old_format a.reported_entry_count rest [] []
      = some (a.entries, a.names_to_ids) := by
  unfold MagesArchive.build at hb
  rw [hh] at hb
  simp only [Option.bind_eq_bind, Option.some_bind] at hb
  by_cases hsig : hd.signature = MPK_SIG
  · rw [if_pos hsig] at hb
    cases hloop : buildLoop (hd.ver_major == 1) hd.entry_count rest [] [] with
    | none => rw [hloop] at hb; simp at hb
    | some q =>
      rw [hloop] at hb
      simp only [Option.some_bind] at hb
      obtain rfl : _ = a := Option.some.inj hb
      exact ⟨hsig, rfl, rfl, rfl, by simpa using hloop⟩
  · rw [if_neg hsig] at hb
    simp at hb

/-- The archive header decodes the same way for both versions: the entry
count is read as a u64 at offset 0x08, and exactly `0x40` bytes are
consumed, so the entry table always begins at offset `0x40`. -/
theorem decodeMpkHeader_eq (s : List Byte) (h : 0x40 ≤ s.length) :
    decodeMpkHeader s
      = some (⟨s.take 4, leNat ((s.drop 4).take 2), leNat ((s.drop 6).take 2),
          leNat ((s.drop 8).take 8)⟩, s.drop 0x40) := by
  unfold decodeMpkHeader
  simp only [takeExact_eq]
  rw [if_pos (show 4 ≤ s.length by omega)]
  simp only [Option.bind_eq_bind, Option.some_bind]
  rw [if_pos (show 2 ≤ (s.drop 4).length by simp only [List.length_drop]; omega)]
  simp only [Option.some_bind]
  rw [if_pos (show 2 ≤ ((s.drop 4).drop 2).length by
    simp only [List.length_drop]; omega)]
  simp only [Option.some_bind]
  rw [if_pos (show 8 ≤ (((s.drop 4).drop 2).drop 2).length by
    simp only [List.length_drop]; omega)]
  simp only [Option.some_bind]
  rw [if_pos (show 48 ≤ ((((s.drop 4).drop 2).drop 2).drop 8).length by
    simp only [List.length_drop]; omega)]
  simp only [Option.some_bind]
  simp [List.drop_drop]

/-- No key outside the supplied pairs is ever found in a fold of inserts. -/
theorem getIM_foldl_insert_none {κ α : Type} [DecidableEq κ]
    (ps : List (κ × α)) (m : List (κ × α)) (k : κ)
    (hm : getIM m k = none) (h : ∀ p ∈ ps, p.1 ≠ k) :
    getIM (ps.foldl (fun m p => insertIM m p.1 p.2) m) k = none := by
  induction ps generalizing m with
  | nil => exact hm
  | cons p rest ih =>
    simp only [List.foldl_cons]
    apply ih
    · rw [getIM_insertIM]
      have : ¬ (k = p.1) := fun h' => h p (List.mem_cons_self _ _) h'.symm
      simp [this, hm]
    · intro q hq
      exact h q (List.mem_cons_of_mem _ hq)

/-- A replacement whose base name matches no entry name is never consulted:
the repack map lookup fails for every entry. -/
theorem getIM_build_repack_map_none (rpk_paths : List (List Byte × List Byte))
    (k : List Byte) (h : ∀ p ∈ rpk_paths, p.1 ≠ k) :
    getIM (build_repack_map rpk_paths) k = none :=
  getIM_foldl_insert_none rpk_paths [] k rfl h

/-- Two repack maps that agree (as `none`) on an entry's name drive
`repack_entry` identically. -/
theorem repackStep_congr (compress : List Byte → List Byte) (orig : List Byte)
    (m1 m2 : List (List Byte × List Byte)) (acc : Sink × List (Nat × MagesEntry))
    (p : Nat × MagesEntry)
    (h1 : getIM m1 p.2.name = none) (h2 : getIM m2 p.2.name = none) :
    repackStep compress orig m1 acc p = repackStep compress orig m2 acc p := by
  simp only [repackStep, MagesArchive.repack_entry, h1, h2]

/-- A repack run is unchanged when every supplied replacement name matches
no entry: it behaves exactly like a run with no replacements. -/
theorem repack_unmatched_aux (a : MagesArchive)
    (compress : List Byte → List Byte) (orig : List Byte) (w : Sink)
    (rpk_paths : List (List Byte × List Byte))
    (h : ∀ p ∈ rpk_paths, ∀ q ∈ a.entries, p.1 ≠ q.2.name) :
    a.repack_entries compress orig w rpk_paths
      = a.repack_entries compress orig w [] := by
  have hmap : ∀ q ∈ a.entries, getIM (build_repack_map rpk_paths) q.2.name = none :=
    fun q hq => getIM_build_repack_map_none _ _ (fun p hp => h p hp q hq)
  unfold MagesArchive.repack_entries
  cases hh : a.entries.head? with
  | none => rfl
  | some first =>
    simp only [Option.bind_eq_bind, Option.some_bind]
    rw [List.foldl_ext (repackStep compress orig (build_repack_map rpk_paths))
      (repackStep compress orig (build_repack_map []))
      ((a.write_archive_header w).seek first.2.offset, [])
      (fun acc q hq => repackStep_congr compress orig _ _ acc q (hmap q hq) rfl)]

/-- Writing at the end of the sink appends. -/
theorem overwriteAt_length_append (buf bs : List Byte) :
    overwriteAt buf buf.length bs = buf ++ bs := by
  unfold overwriteAt
  rw [List.take_length, Nat.sub_self, List.replicate_zero,
    List.drop_eq_nil_of_le (by omega)]
  simp

/-- The zero-offset records and the surviving records partition the table. -/
theorem length_filter_split (rs : List MagesEntry) :
    (survivors rs).length + (rs.filter (fun e => e.offset = 0)).length
      = rs.length := by
  induction rs with
  | nil => rfl
  | cons e rest ih =>
    by_cases h : e.offset = 0 <;>
      simp only [survivors, List.filter_cons, h] <;> simp_all [survivors] <;> omega

/-- What a successful `build` says about the entry map, in terms of the
decoded record list. -/
theorem build_entries_eq {s : List Byte} {hd : MpkHeader} {rest rest2 : List Byte}
    {a : MagesArchive} {rs : List MagesEntry}
    (hh : decodeMpkHeader s = some (hd, rest))
    (hb : MagesArchive.build s = some a)
    (hr : decodeRecords (hd.ver_major == 1) hd.entry_count rest = some (rs, rest2)) :
    a.entries = (survivors rs).foldl (fun m e => insertIM m e.id e) []
    ∧ a.reported_entry_count = rs.length := by
  obtain ⟨hsig, hold, hmaj, hcount, hloop⟩ := build_elim hh hb
  rw [hold, hcount, buildLoop_eq, hr] at hloop
  simp only [Option.map_some', Option.some.injEq, Prod.mk.injEq] at hloop
  exact ⟨hloop.1.symm, by rw [hcount, decodeRecords_length hr]⟩

/-! ## Symbolic evaluation of the repack sink -/

theorem leBytes_length (w v : Nat) : (leBytes w v).length = w := by
  induction w generalizing v with
  | zero => rfl
  | succ w ih => simp [leBytes, ih]

theorem overwriteAt_nil (bs : List Byte) : overwriteAt [] 0 bs = bs := by
  simp [overwriteAt]

theorem Sink_write_empty (bs : List Byte) :
    Sink.write ⟨[], 0⟩ bs = ⟨bs, bs.length⟩ := by
  simp [Sink.write, overwriteAt_nil]

theorem Sink_write_end (d bs : List Byte) (p : Nat) (hp : p = d.length) :
    Sink.write ⟨d, p⟩ bs = ⟨d ++ bs, p + bs.length⟩ := by
  subst hp
  simp [Sink.write, overwriteAt_length_append]

theorem overwriteAt_mid (A B bs : List Byte) (p : Nat) (hp : p = A.length)
    (hb : bs.length ≤ B.length) :
    overwriteAt (A ++ B) p bs = A ++ bs ++ B.drop bs.length := by
  subst hp
  unfold overwriteAt
  rw [List.take_left,
    Nat.sub_eq_zero_of_le (by simp only [List.length_append]; omega),
    List.replicate_zero, List.drop_append_eq_append_drop,
    List.drop_eq_nil_of_le (by omega)]
  simp [Nat.add_sub_cancel_left]

theorem Sink_write_mid (A B bs : List Byte) (p : Nat) (hp : p = A.length)
    (hb : bs.length ≤ B.length) :
    Sink.write ⟨A ++ B, p⟩ bs
      = ⟨A ++ bs ++ B.drop bs.length, p + bs.length⟩ := by
  simp [Sink.write, overwriteAt_mid A B bs p hp hb]

theorem overwriteAt_past (d bs : List Byte) (p : Nat) (hd : d.length ≤ p) :
    overwriteAt d p bs = d ++ List.replicate (p - d.length) 0 ++ bs := by
  unfold overwriteAt
  rw [List.take_of_length_le hd, List.drop_eq_nil_of_le (by omega)]
  simp [List.append_assoc]

theorem Sink_write_past (d bs : List Byte) (p : Nat) (hd : d.length ≤ p) :
    Sink.write ⟨d, p⟩ bs
      = ⟨d ++ List.replicate (p - d.length) 0 ++ bs, p + bs.length⟩ := by
  simp [Sink.write, overwriteAt_past d bs p hd]

theorem write_alignment_padding_64 (w : Sink) :
    write_alignment_padding w 64 = w.write (List.replicate 1984 0) := by
  norm_num [write_alignment_padding]

theorem write_alignment_padding_2048 (w : Sink) :
    write_alignment_padding w 2048 = w := by
  norm_num [write_alignment_padding]

/-- `repack_entries` on a single-entry archive, reduced to its constituent
steps. -/
theorem repack_entries_single (a : MagesArchive)
    (compress : List Byte → List Byte) (orig : List Byte) (w0 : Sink)
    (rpk_paths : List (List Byte × List Byte)) (i : Nat) (e : MagesEntry)
    (hentries : a.entries = [(i, e)]) :
    a.repack_entries compress orig w0 rpk_paths
      = (let w1 := (a.write_archive_header w0).seek e.offset
         let r := MagesArchive.repack_entry compress orig w1
           (build_repack_map rpk_paths) e
         (a.write_entry_headers (r.1.seek FIRST_HEADER_OFFSET) [(e.id, r.2)]).bind
           (fun w3 => some (w3, { a with entries := [(e.id, r.2)] }))) := by
  unfold MagesArchive.repack_entries
  rw [hentries]
  simp only [List.head?_cons, Option.bind_eq_bind, Option.some_bind,
    List.foldl_cons, List.foldl_nil, repackStep]
  rfl

theorem headerA_length : headerA.length = 64 := by decide

theorem byeBytes_length : byeBytes.length = 5 := by decide

theorem recBye_length : recBye.length = 256 := by decide

/-- `write_entry_headers` over a single V1 entry is one record write. -/
theorem write_entry_headers_single (a : MagesArchive) (w : Sink) (i : Nat)
    (e : MagesEntry) (bs : List Byte) (hold : a.is_old_format = true)
    (henc : encodeMpkEntryV1 e = some bs) :
    a.write_entry_headers w [(i, e)] = some (w.write bs) := by
  unfold MagesArchive.write_entry_headers
  simp only [List.foldlM, hold, if_true, henc, Option.bind_eq_bind,
    Option.some_bind, eq_self_iff_true]
  rfl

/-- The `"Bye!!"` repack of the fixture archive, computed symbolically:
the header, then the rewritten entry record at 0x40, zeros up to 0x800,
and the 5 replacement bytes. -/
theorem repack_fixtureA_bye :
    fixtureArchiveA.repack_entries id fixtureV1 ⟨[], 0⟩ [(nameATxt, byeBytes)]
      = some (⟨headerA ++ recBye ++ (List.replicate 1728 0 ++ byeBytes), 320⟩,
          archBye) := by
  have hH : fixtureArchiveA.write_archive_header ⟨[], 0⟩ = ⟨headerA, 64⟩ := by
    rw [show fixtureArchiveA.write_archive_header ⟨[], 0⟩
        = Sink.write ⟨[], 0⟩ headerA from rfl, Sink_write_empty, headerA_length]
  have hre : MagesArchive.repack_entry id fixtureV1 ⟨headerA, 64⟩
      (build_repack_map [(nameATxt, byeBytes)]) entryA
      = (⟨headerA ++ (List.replicate 1984 0 ++ byeBytes), 2053⟩, newEntryBye) := by
    unfold MagesArchive.repack_entry
    rw [show (⟨headerA, 64⟩ : Sink).pos = 64 from rfl, write_alignment_padding_64]
    rw [Sink_write_end headerA _ 64 headerA_length.symm]
    simp only [List.length_replicate]
    norm_num only
    rw [show getIM (build_repack_map [(nameATxt, byeBytes)]) entryA.name
        = some byeBytes from by decide]
    unfold MagesArchive.repack_from_file MagesEntry.repack
    rw [show entryA.is_compressed = false from by decide]
    simp only [Bool.false_eq_true, if_false]
    rw [Sink_write_end (headerA ++ List.replicate 1984 0) byeBytes 2048
      (by rw [List.length_append, headerA_length, List.length_replicate])]
    simp only [List.append_assoc]
    norm_num [MagesEntry.updated, newEntryBye, entryA, byeBytes, nameATxt]
  have hwe : fixtureArchiveA.write_entry_headers
      ⟨headerA ++ (List.replicate 1984 0 ++ byeBytes), 64⟩ [((0 : Nat), newEntryBye)]
      = some ⟨headerA ++ recBye ++ (List.replicate 1728 0 ++ byeBytes), 320⟩ := by
    rw [write_entry_headers_single fixtureArchiveA _ 0 newEntryBye recBye rfl
      (by decide)]
    rw [Sink_write_mid headerA (List.replicate 1984 0 ++ byeBytes) recBye 64
      headerA_length.symm
      (by rw [recBye_length, List.length_append, List.length_replicate,
            byeBytes_length]
          norm_num)]
    rw [recBye_length, List.drop_append_eq_append_drop, List.drop_replicate]
    simp only [List.length_replicate]
    norm_num [List.drop_zero]
  rw [repack_entries_single fixtureArchiveA id fixtureV1 ⟨[], 0⟩
    [(nameATxt, byeBytes)] 0 entryA rfl]
  rw [hH]
  rw [show Sink.seek ⟨headerA, 64⟩ entryA.offset = ⟨headerA, 64⟩ from rfl]
  dsimp only []
  rw [hre]
  dsimp only []
  rw [show Sink.seek ⟨headerA ++ (List.replicate 1984 0 ++ byeBytes), 2053⟩
      FIRST_HEADER_OFFSET = ⟨headerA ++ (List.replicate 1984 0 ++ byeBytes), 64⟩
    from rfl]
  rw [show entryA.id = (0 : Nat) from rfl]
  rw [hwe]
  simp only [Option.bind_eq_bind, Option.some_bind]
  rfl

theorem recCopy_length : recCopy.length = 256 := by decide

theorem copiedA_length : copiedA.length = 10 := by decide

theorem helloBytes_length : helloBytes.length = 10 := by decide

/-- The empty-replacement repack of the fixture archive, computed
symbolically: the entry data (the 10 bytes copied from offset 0x40 of the
original) moves to 0x800 and the record is rewritten accordingly. -/
theorem repack_fixtureA_copy :
    fixtureArchiveA.repack_entries id fixtureV1 ⟨[], 0⟩ []
      = some (⟨headerA ++ recCopy ++ (List.replicate 1728 0 ++ copiedA), 320⟩,
          archCopy) := by
  have hH : fixtureArchiveA.write_archive_header ⟨[], 0⟩ = ⟨headerA, 64⟩ := by
    rw [show fixtureArchiveA.write_archive_header ⟨[], 0⟩
        = Sink.write ⟨[], 0⟩ headerA from rfl, Sink_write_empty, headerA_length]
  have hre : MagesArchive.repack_entry id fixtureV1 ⟨headerA, 64⟩
      (build_repack_map []) entryA
      = (⟨headerA ++ (List.replicate 1984 0 ++ copiedA), 2058⟩, newEntryCopy) := by
    unfold MagesArchive.repack_entry
    rw [show (⟨headerA, 64⟩ : Sink).pos = 64 from rfl, write_alignment_padding_64]
    rw [Sink_write_end headerA _ 64 headerA_length.symm]
    simp only [List.length_replicate]
    norm_num only
    rw [show getIM (build_repack_map []) entryA.name = none from rfl]
    unfold MagesArchive.copy_original_entry
    rw [show (fixtureV1.drop entryA.offset).take entryA.len_compressed
        = copiedA from by decide]
    dsimp only []
    rw [Sink_write_end (headerA ++ List.replicate 1984 0) copiedA 2048
      (by rw [List.length_append, headerA_length, List.length_replicate])]
    rw [copiedA_length]
    simp only [List.append_assoc]
    norm_num [MagesEntry.updated, newEntryCopy, entryA]
  have hwe : fixtureArchiveA.write_entry_headers
      ⟨headerA ++ (List.replicate 1984 0 ++ copiedA), 64⟩ [((0 : Nat), newEntryCopy)]
      = some ⟨headerA ++ recCopy ++ (List.replicate 1728 0 ++ copiedA), 320⟩ := by
    rw [write_entry_headers_single fixtureArchiveA _ 0 newEntryCopy recCopy rfl
      (by decide)]
    rw [Sink_write_mid headerA (List.replicate 1984 0 ++ copiedA) recCopy 64
      headerA_length.symm
      (by rw [recCopy_length, List.length_append, List.length_replicate,
            copiedA_length]
          norm_num)]
    rw [recCopy_length, List.drop_append_eq_append_drop, List.drop_replicate]
    simp only [List.length_replicate]
    norm_num [List.drop_zero]
  rw [repack_entries_single fixtureArchiveA id fixtureV1 ⟨[], 0⟩ [] 0 entryA rfl]
  rw [hH]
  rw [show Sink.seek ⟨headerA, 64⟩ entryA.offset = ⟨headerA, 64⟩ from rfl]
  dsimp only []
  rw [hre]
  dsimp only []
  rw [show Sink.seek ⟨headerA ++ (List.replicate 1984 0 ++ copiedA), 2058⟩
      FIRST_HEADER_OFFSET = ⟨headerA ++ (List.replicate 1984 0 ++ copiedA), 64⟩
    from rfl]
  rw [show entryA.id = (0 : Nat) from rfl]
  rw [hwe]
  simp only [Option.bind_eq_bind, Option.some_bind]
  rfl

/-- The aligned fixture byte stream regrouped into header, record, padding
and data segments. -/
theorem fixtureV1Aligned_split :
    fixtureV1Aligned = headerA ++ recCopy ++ (List.replicate 1728 0 ++ helloBytes) := by
  rw [show headerA = MPK_SIG ++ leBytes 2 0 ++ leBytes 2 1 ++ leBytes 8 1
      ++ List.replicate 0x30 0 from by decide]
  unfold fixtureV1Aligned recCopy helloBytes nameATxt
  norm_num [List.append_assoc]
  rw [show (1947 : Nat) = 219 + 1728 from by norm_num, List.replicate_add,
    List.append_assoc]

theorem fixtureV1Aligned_prefix_length :
    (headerA ++ recCopy ++ List.replicate 1728 0).length = 2048 := by
  rw [List.length_append, List.length_append, headerA_length, recCopy_length,
    List.length_replicate]

/-- The empty-replacement repack of the aligned fixture archive reproduces
the original byte stream exactly. -/
theorem repack_fixtureB :
    fixtureArchiveB.repack_entries id fixtureV1Aligned ⟨[], 0⟩ []
      = some (⟨fixtureV1Aligned, 320⟩, fixtureArchiveB) := by
  have hH : fixtureArchiveB.write_archive_header ⟨[], 0⟩ = ⟨headerA, 64⟩ := by
    rw [show fixtureArchiveB.write_archive_header ⟨[], 0⟩
        = Sink.write ⟨[], 0⟩ (encodeMpkHeader fixtureArchiveB) from rfl,
      show encodeMpkHeader fixtureArchiveB = headerA from by decide,
      Sink_write_empty, headerA_length]
  have hcontent : (fixtureV1Aligned.drop entryB.offset).take entryB.len_compressed
      = helloBytes := by
    rw [show entryB.offset = 2048 from rfl, show entryB.len_compressed = 10 from rfl]
    rw [fixtureV1Aligned_split,
      ← List.append_assoc (headerA ++ recCopy) (List.replicate 1728 0) helloBytes,
      show (2048 : Nat) = (headerA ++ recCopy ++ List.replicate 1728 0).length from
        fixtureV1Aligned_prefix_length.symm,
      List.drop_left]
    decide
  have hre : MagesArchive.repack_entry id fixtureV1Aligned ⟨headerA, 2048⟩
      (build_repack_map []) entryB
      = (⟨headerA ++ List.replicate 1984 0 ++ helloBytes, 2058⟩, entryB) := by
    unfold MagesArchive.repack_entry
    rw [show (⟨headerA, 2048⟩ : Sink).pos = 2048 from rfl,
      write_alignment_padding_2048]
    rw [show getIM (build_repack_map []) entryB.name = none from rfl]
    unfold MagesArchive.copy_original_entry
    rw [hcontent]
    dsimp only []
    rw [Sink_write_past headerA helloBytes 2048 (by rw [headerA_length]; norm_num)]
    rw [headerA_length, helloBytes_length]
    norm_num [MagesEntry.updated, entryB]
  have hwe : fixtureArchiveB.write_entry_headers
      ⟨headerA ++ List.replicate 1984 0 ++ helloBytes, 64⟩ [((0 : Nat), entryB)]
      = some ⟨fixtureV1Aligned, 320⟩ := by
    rw [write_entry_headers_single fixtureArchiveB _ 0 entryB recCopy rfl
      (by decide)]
    rw [List.append_assoc headerA (List.replicate 1984 0) helloBytes]
    rw [Sink_write_mid headerA (List.replicate 1984 0 ++ helloBytes) recCopy 64
      headerA_length.symm
      (by rw [recCopy_length, List.length_append, List.length_replicate,
            helloBytes_length]
          norm_num)]
    rw [recCopy_length, List.drop_append_eq_append_drop, List.drop_replicate]
    simp only [List.length_replicate]
    rw [fixtureV1Aligned_split]
    norm_num [List.drop_zero]
  rw [repack_entries_single fixtureArchiveB id fixtureV1Aligned ⟨[], 0⟩ [] 0 entryB
    rfl]
  rw [hH]
  rw [show Sink.seek ⟨headerA, 64⟩ entryB.offset = ⟨headerA, 2048⟩ from rfl]
  dsimp only []
  rw [hre]
  dsimp only []
  rw [show Sink.seek ⟨headerA ++ List.replicate 1984 0 ++ helloBytes, 2058⟩
      FIRST_HEADER_OFFSET = ⟨headerA ++ List.replicate 1984 0 ++ helloBytes, 64⟩
    from rfl]
  rw [show entryB.id = (0 : Nat) from rfl]
  rw [hwe]
  simp only [Option.bind_eq_bind, Option.some_bind]
  rfl

/-- The `"Bye!!"` repack of the parsed fixture, as an `Option` pipeline. -/
theorem repackedA_eq :
    repackedA = some (⟨headerA ++ recBye ++ (List.replicate 1728 0 ++ byeBytes),
      320⟩, archBye) := by
  unfold repackedA
  rw [show MagesArchive.build fixtureV1 = some fixtureArchiveA from by decide]
  simp only [Option.bind_eq_bind, Option.some_bind]
  exact repack_fixtureA_bye

/-- The empty-replacement repack of the parsed fixture. -/
theorem repackedA0_eq :
    repackedA0 = some (⟨headerA ++ recCopy ++ (List.replicate 1728 0 ++ copiedA),
      320⟩, archCopy) := by
  unfold repackedA0
  rw [show MagesArchive.build fixtureV1 = some fixtureArchiveA from by decide]
  simp only [Option.bind_eq_bind, Option.some_bind]
  exact repack_fixtureA_copy

/-- The empty-replacement repack of the parsed aligned fixture. -/
theorem repackedB_eq :
    repackedB = some (⟨fixtureV1Aligned, 320⟩, fixtureArchiveB) := by
  unfold repackedB
  rw [show MagesArchive.build fixtureV1Aligned = some fixtureArchiveB from by decide]
  simp only [Option.bind_eq_bind, Option.some_bind]
  exact repack_fixtureB

theorem byePrefix_length :
    (headerA ++ recBye ++ List.replicate 1728 0).length = 2048 := by
  rw [List.length_append, List.length_append, headerA_length, recBye_length,
    List.length_replicate]

theorem copyData_length :
    (headerA ++ recCopy ++ (List.replicate 1728 0 ++ copiedA)).length = 2058 := by
  rw [List.length_append, List.length_append, List.length_append, headerA_length,
    recCopy_length, List.length_replicate, copiedA_length]

/-! ## The claims -/

/-- C1: `MagesEntry::repack` claims (and its doc comment states) that it
returns the number of bytes actually written to the sink — the
deflated/stored size for a compressed entry — and this count becomes the
new entry's `len_compressed`.  In fact the compressed branch returns the
count reported by `io::copy` into the zlib encoder: the bytes read from
the source (the uncompressed length).  This theorem shows that for any
compressed entry the sink receives `compress source` while the returned
count is `source.length`, that `repack_from_file` records that count as
the new `len_compressed`, and that whenever the deflated length differs
from the source length the returned count is not the number of bytes that
reached the sink. -/
theorem C1_repack_count_is_bytes_read :
    ∀ (e : MagesEntry) (compress : List Byte → List Byte) (source buf : List Byte)
      (new_offset : Nat),
    e.is_compressed = true →
    (e.repack compress source ⟨buf, buf.length⟩ false
      = (⟨buf ++ compress source, buf.length + (compress source).length⟩,
          source.length))
    ∧ ((MagesArchive.repack_from_file compress ⟨buf, buf.length⟩ e new_offset
          source).2.len_compressed = source.length)
    ∧ ((compress source).length ≠ source.length →
        (e.repack compress source ⟨buf, buf.length⟩ false).2
          ≠ (e.repack compress source ⟨buf, buf.length⟩ false).1.data.length
              - buf.length) := by
  intro e compress source buf new_offset hc
  have hw : Sink.write ⟨buf, buf.length⟩ (compress source)
      = ⟨buf ++ compress source, buf.length + (compress source).length⟩ := by
    simp [Sink.write, overwriteAt_length_append]
  refine ⟨?_, ?_, ?_⟩
  · simp [MagesEntry.repack, hc, hw]
  · simp [MagesArchive.repack_from_file, MagesEntry.repack, MagesEntry.updated, hc]
  · intro hne
    simp only [MagesEntry.repack, hc, if_pos, if_true, hw, if_false]
    simp [List.length_append]
    omega

/-- Witness for C1 at a concrete compressed entry, a 5-byte source and a
2-byte deflated image: the sink holds 2 bytes but `repack` returns 5. -/
theorem C1_repack_count_is_bytes_read_witness :
    cexEntry.is_compressed = true ∧
    cexEntry.repack (fun _ => [1, 2]) [9, 9, 9, 9, 9] ⟨[], 0⟩ false
      = (⟨[1, 2], 2⟩, 5) ∧
    (cexEntry.repack (fun _ => [1, 2]) [9, 9, 9, 9, 9] ⟨[], 0⟩ false).2
      ≠ (cexEntry.repack (fun _ => [1, 2]) [9, 9, 9, 9, 9] ⟨[], 0⟩ false).1.data.length
          - 0 := by
  have h := C1_repack_count_is_bytes_read cexEntry (fun _ => [1, 2]) [9, 9, 9, 9, 9]
    [] 0 (by decide)
  exact ⟨by decide, by simpa using h.1, by simpa using h.2.2 (by decide)⟩


/-- C2 (counterexample): repacking the fixture archive with the 5-byte
replacement `"Bye!!"` does NOT leave entry 0 at offset 0x40, and the byte
region at 0x40 does not hold `"Bye!!"` — it holds the start of the
rewritten entry table record (the id field, zeros), because `repack_entry`
pads every entry, including the first, up to the next 2048-byte boundary
before writing its data. -/
theorem C2_scenario_cex :
    repackedA.map (fun p => (getIM p.2.entries 0).map MagesEntry.offset)
      = some (some 0x800)
    ∧ (0x800 : Nat) ≠ 0x40
    ∧ repackedA.map (fun p => (p.1.data.drop 0x40).take 5) = some [0, 0, 0, 0, 0]
    ∧ ([0, 0, 0, 0, 0] : List Byte) ≠ byeBytes := by
  refine ⟨?_, by decide, ?_, by decide⟩
  · rw [repackedA_eq, Option.map_some']
    decide
  · rw [repackedA_eq, Option.map_some']
    simp only [Option.some.injEq]
    rw [List.append_assoc headerA recBye (List.replicate 1728 0 ++ byeBytes),
      show (0x40 : Nat) = headerA.length from headerA_length.symm, List.drop_left,
      List.take_append_of_le_length (by rw [recBye_length]; norm_num)]
    decide

/-- C2 (amended): replacing `"a.txt"` with the 5-byte file `"Bye!!"` in the
fixture archive yields a new archive in which entry 0 has
`size_uncompressed = 5`, its offset is 0x800 (the next 2048-byte alignment
boundary), and the output bytes at offset 0x800 are `"Bye!!"`. -/
theorem C2_scenario :
    repackedA.map (fun p =>
        ((getIM p.2.entries 0).map (fun e => (e.len_deflated, e.offset)),
         (p.1.data.drop 0x800).take 5))
      = some (some (5, 0x800), byeBytes) := by
  rw [repackedA_eq, Option.map_some']
  simp only [Option.some.injEq, Prod.mk.injEq]
  refine ⟨by decide, ?_⟩
  rw [← List.append_assoc (headerA ++ recBye) (List.replicate 1728 0) byeBytes,
    show (0x800 : Nat) = (headerA ++ recBye ++ List.replicate 1728 0).length from
      byePrefix_length.symm,
    List.drop_left]
  decide

/-- C3 (counterexample): the claimed layout (u32 count for V1; table at
0x44 for V2) disagrees with the code.  On `c3v2Stream` the code decodes
the entry record from offset 0x40 (id 7) while the claimed layout decodes
it from 0x44 (id 2048).  On `c3v1Stream` the code reads the V1 count as a
u64 (`1 + 2^32`) and fails, while the claimed u32 count accepts the
stream with one entry. -/
theorem C3_layout_cex :
    (MagesArchive.build c3v2Stream).map (fun a => a.iter.map MagesEntry.id)
      = some [7]
    ∧ (buildClaimC3 c3v2Stream).map (fun a => a.iter.map MagesEntry.id)
      = some [2048]
    ∧ ([7] : List Nat) ≠ [2048]
    ∧ MagesArchive.build c3v1Stream = none
    ∧ (buildClaimC3 c3v1Stream).map (fun a => a.iter.map MagesEntry.id)
      = some [9] := by
  exact ⟨by decide, by decide, by decide, by decide, by decide⟩

/-- C3 (amended): the on-disk header is identical for both versions — the
entry count is stored as a u64 at offset 0x08, the header occupies exactly
0x40 bytes, and the entry table begins at 0x40, both when parsing (the
header decode consumes exactly 0x40 bytes) and when the repack engine
seeks back to write entry headers (`FIRST_HEADER_OFFSET = 0x40`). -/
theorem C3_header_layout (s : List Byte) (h : 0x40 ≤ s.length) :
    decodeMpkHeader s
      = some (⟨s.take 4, leNat ((s.drop 4).take 2), leNat ((s.drop 6).take 2),
          leNat ((s.drop 8).take 8)⟩, s.drop 0x40)
    ∧ FIRST_HEADER_OFFSET = 0x40 :=
  ⟨decodeMpkHeader_eq s h, rfl⟩

/-- Witness for C3 at the concrete 0x40-byte stream `major3Stream`. -/
theorem C3_header_layout_witness :
    0x40 ≤ major3Stream.length ∧
    decodeMpkHeader major3Stream
      = some (⟨major3Stream.take 4, leNat ((major3Stream.drop 4).take 2),
          leNat ((major3Stream.drop 6).take 2),
          leNat ((major3Stream.drop 8).take 8)⟩, major3Stream.drop 0x40)
    ∧ FIRST_HEADER_OFFSET = 0x40 :=
  ⟨by decide, (C3_header_layout major3Stream (by decide)).1,
    (C3_header_layout major3Stream (by decide)).2⟩

/-- C4 (counterexample): an entry parsed from a V2 archive with a nonzero
compression indicator but equal sizes has `compressed = false`: the
indicator is carried through but never consulted, so "compressed iff the
indicator is nonzero" fails for V2. -/
theorem C4_indicator_ignored_cex :
    (MagesArchive.build c4Stream).map
        (fun a => a.iter.map (fun e => (e.cpr_indicator, e.is_compressed)))
      = some [(1, false)]
    ∧ (1 : Nat) ≠ 0 := by
  exact ⟨by decide, by decide⟩

/-- C4 (amended): for BOTH versions `compressed` is derived from the size
mismatch `len_compressed ≠ len_deflated` (the V1 heuristic); the V2
indicator field is preserved in `cpr_indicator` but not consulted.  This
flag is what selects zlib inflate in `extract` and zlib deflate in
`repack`. -/
theorem C4_compressed_iff_size_mismatch :
    ∀ (r2 : MpkEntryV2) (r1 : MpkEntryV1) (e2 e1 : MagesEntry)
      (inflate compress : List Byte → List Byte) (source : List Byte) (w : Sink),
    MagesEntry.fromV2 r2 = some e2 → MagesEntry.fromV1 r1 = some e1 →
    (((e2.is_compressed = true) ↔ r2.len_compressed ≠ r2.len_deflated)
      ∧ e2.cpr_indicator = r2.cpr_indicator)
    ∧ ((e1.is_compressed = true) ↔ r1.len_compressed ≠ r1.len_deflated)
    ∧ e2.extract inflate source
        = (if e2.is_compressed then inflate (source.take e2.len_compressed)
           else source.take e2.len_compressed)
    ∧ (e2.repack compress source w false).1
        = (if e2.is_compressed then w.write (compress source)
           else w.write source) := by
  intro r2 r1 e2 e1 inflate compress source w h2 h1
  simp only [MagesEntry.fromV2, Option.bind_eq_bind] at h2
  simp only [MagesEntry.fromV1, Option.bind_eq_bind] at h1
  cases hn2 : entry_name_from_bytes r2.name with
  | none => rw [hn2] at h2; simp at h2
  | some n2 =>
    cases hn1 : entry_name_from_bytes r1.name with
    | none => rw [hn1] at h1; simp at h1
    | some n1 =>
      rw [hn2] at h2
      rw [hn1] at h1
      simp only [Option.some_bind, Option.some.injEq] at h2 h1
      subst h2
      subst h1
      refine ⟨⟨?_, rfl⟩, ?_, rfl, rfl⟩
      · simp [MagesEntry.is_compressed]
      · simp [MagesEntry.is_compressed]

/-- Witness for C4 at concrete V1 and V2 records with equal sizes. -/
theorem C4_compressed_iff_size_mismatch_witness :
    MagesEntry.fromV2 v2cex = some v2cexEntry ∧
    MagesEntry.fromV1 v1cex = some v1cexEntry ∧
    (((v2cexEntry.is_compressed = true) ↔ v2cex.len_compressed ≠ v2cex.len_deflated)
      ∧ v2cexEntry.cpr_indicator = v2cex.cpr_indicator) :=
  ⟨by decide, by decide,
    (C4_compressed_iff_size_mismatch v2cex v1cex v2cexEntry v1cexEntry id id []
      ⟨[], 0⟩ (by decide) (by decide)).1⟩

/-- C5 (amended): `repack_entries` performs no validation of replacement
names.  A replacement file whose base name matches no entry name is
silently ignored: the repack run is identical to a run with no
replacements at all (every entry is copied from the original), and no
`UnknownReplacementTarget` failure exists in this code path. -/
theorem C5_unknown_replacement_ignored (a : MagesArchive)
    (compress : List Byte → List Byte) (orig : List Byte) (w : Sink)
    (rpk_paths : List (List Byte × List Byte))
    (h : ∀ p ∈ rpk_paths, ∀ q ∈ a.entries, p.1 ≠ q.2.name) :
    a.repack_entries compress orig w rpk_paths
      = a.repack_entries compress orig w [] :=
  repack_unmatched_aux a compress orig w rpk_paths h

/-- Witness for C5: the unmatched replacement `"b.txt"` leaves the repack
of the fixture archive identical to a repack with no replacements. -/
theorem C5_unknown_replacement_ignored_witness :
    (∀ p ∈ [(nameBTxt, ([1, 2, 3] : List Byte))],
      ∀ q ∈ fixtureArchiveA.entries, p.1 ≠ q.2.name) ∧
    fixtureArchiveA.repack_entries id fixtureV1 ⟨[], 0⟩
        [(nameBTxt, [1, 2, 3])]
      = fixtureArchiveA.repack_entries id fixtureV1 ⟨[], 0⟩ [] :=
  ⟨by decide, C5_unknown_replacement_ignored fixtureArchiveA id fixtureV1 ⟨[], 0⟩
    [(nameBTxt, [1, 2, 3])] (by decide)⟩

/-- C5 (counterexample): supplying the replacement name `"b.txt"`, which
matches no entry of the fixture archive, does not fail and does not leave
the sink unwritten: the repack succeeds and writes a 2058-byte stream. -/
theorem C5_no_validation_cex :
    getIM fixtureArchiveA.names_to_ids nameBTxt = none
    ∧ (fixtureArchiveA.repack_entries id fixtureV1 ⟨[], 0⟩
        [(nameBTxt, [1, 2, 3])]).isSome = true
    ∧ (fixtureArchiveA.repack_entries id fixtureV1 ⟨[], 0⟩
        [(nameBTxt, [1, 2, 3])]).map (fun p => p.1.data.length) = some 2058 := by
  have h := repack_unmatched_aux fixtureArchiveA id fixtureV1 ⟨[], 0⟩
    [(nameBTxt, [1, 2, 3])] (by decide)
  refine ⟨by decide, ?_, ?_⟩
  · rw [h, repack_fixtureA_copy]
    rfl
  · rw [h, repack_fixtureA_copy, Option.map_some', copyData_length]

/-- C6 (counterexample): a stream with a valid magic and major version 3 is
accepted by `MagesArchive::build` (parsed with the V2 layout), so an
archive model is produced for a major version outside {1, 2}. -/
theorem C6_major3_accepted_cex :
    (MagesArchive.build major3Stream).map MagesArchive.ver_major = some 3
    ∧ (3 : Nat) ≠ 1 ∧ (3 : Nat) ≠ 2 := by
  exact ⟨by decide, by decide, by decide⟩

/-- C6 (amended): the version check lives only in the older vfs layer:
`MpkVersion::build` succeeds exactly for major versions 1 and 2, while the
current parser `MagesArchive::build` validates only the signature and
produces an archive for any major version, treating every major other
than 1 as V2. -/
theorem C6_version_check :
    (∀ major minor : Nat,
      (MpkVersion.build major minor).isSome = true ↔ (major = 1 ∨ major = 2))
    ∧ (MagesArchive.build major3Stream).isSome = true := by
  constructor
  · intro major minor
    unfold MpkVersion.build
    by_cases h1 : major = 1
    · simp [h1]
    · by_cases h2 : major = 2 <;> simp [h1, h2]
  · decide

/-- C7 (counterexample): name lookup is case-sensitive.  In the parsed
fixture archive the stored name `"a.txt"` finds entry 0 but its
letter-case variant `"A.TXT"` finds nothing. -/
theorem C7_case_sensitive_cex :
    (MagesArchive.build fixtureV1).map
        (fun a => (a.get_entry_by_name nameUpper, a.get_entry_by_name nameATxt))
      = some (none, some entryA) := by
  decide

/-- C7 (amended): `get_entry_by_name` is an exact lookup on the stored
names: a query equal to no stored name (such as a different-cased variant
of a stored name) returns `none`, and a query that hits the name index
returns exactly the id lookup for the mapped id. -/
theorem C7_lookup_exact (a : MagesArchive) (n : List Byte) :
    ((∀ p ∈ a.names_to_ids, p.1 ≠ n) → a.get_entry_by_name n = none)
    ∧ (∀ i, getIM a.names_to_ids n = some i →
        a.get_entry_by_name n = a.get_entry_by_id i) := by
  constructor
  · intro h
    unfold MagesArchive.get_entry_by_name
    rw [show getIM a.names_to_ids n = none from ?_]
    · rfl
    · unfold getIM
      rw [List.find?_eq_none.mpr (fun p hp => by simpa using h p hp)]
      rfl
  · intro i hi
    unfold MagesArchive.get_entry_by_name
    rw [hi]
    rfl

/-- Witness for C7: in the fixture archive the variant `"A.TXT"` matches no
stored name and the lookup returns `none`. -/
theorem C7_lookup_exact_witness :
    (∀ p ∈ fixtureArchiveA.names_to_ids, p.1 ≠ nameUpper) ∧
    fixtureArchiveA.get_entry_by_name nameUpper = none :=
  ⟨by decide, (C7_lookup_exact fixtureArchiveA nameUpper).1 (by decide)⟩


/-- C8 (amended): every entry surviving the parse has a nonzero offset, and
when the surviving records carry pairwise-distinct ids, the number of
entries `iter()` yields is the reported count minus the number of
zero-offset records.  (Without the distinctness hypothesis duplicate ids
collapse and the count drops further — see the counterexample.) -/
theorem C8_zero_offset_records_dropped :
    ∀ (s : List Byte) (hd : MpkHeader) (rest rest2 : List Byte) (a : MagesArchive)
      (rs : List MagesEntry),
    decodeMpkHeader s = some (hd, rest) →
    MagesArchive.build s = some a →
    decodeRecords (hd.ver_major == 1) hd.entry_count rest = some (rs, rest2) →
    (∀ e ∈ a.iter, 0 < e.offset)
    ∧ (((survivors rs).map MagesEntry.id).Nodup →
        a.iter.length
          = a.reported_entry_count - (rs.filter (fun e => e.offset = 0)).length) := by
  intro s hd rest rest2 a rs hh hb hr
  obtain ⟨hent, hcount⟩ := build_entries_eq hh hb hr
  constructor
  · intro e he
    unfold MagesArchive.iter at he
    rw [hent] at he
    obtain ⟨q, hq, rfl⟩ := List.mem_map.mp he
    rcases mem_foldl_insertIM hq with h0 | ⟨e', he', hqe⟩
    · simp at h0
    · have hne : e'.offset ≠ 0 := by
        have := (List.mem_filter.mp he').2
        simpa using this
      rw [hqe]
      exact Nat.pos_of_ne_zero hne
  · intro hnodup
    have hlen : a.iter.length = a.entries.length := by
      simp [MagesArchive.iter]
    have hlen2 : a.entries.length
        = ((survivors rs).foldl (fun ks e => insertKey ks e.id) []).length := by
      calc a.entries.length = (a.entries.map Prod.fst).length :=
            (List.length_map _ _).symm
        _ = _ := by rw [hent, keys_foldl_insertIM, List.map_nil]
    have hfm : (survivors rs).foldl (fun ks e => insertKey ks e.id) ([] : List Nat)
        = ((survivors rs).map MagesEntry.id).foldl insertKey [] := by
      rw [List.foldl_map]
    have hfinal := length_foldl_insertKey ((survivors rs).map MagesEntry.id) []
      hnodup (by simp)
    rw [hfm] at hlen2
    rw [hfinal] at hlen2
    simp only [List.length_map, List.length_nil] at hlen2
    have hsplit := length_filter_split rs
    rw [hlen, hlen2, hcount]
    omega

/-- C8 (counterexample): a table with two nonzero-offset records sharing
id 5 collapses to one entry, so `iter()` yields 1 entry although
`reported_entry_count - #zero-offset records` is 2. -/
theorem C8_duplicate_id_count_cex :
    (MagesArchive.build dupIdStream).map
        (fun a => (a.iter.length, a.reported_entry_count)) = some (1, 2)
    ∧ decodeRecords true 2 (dupIdStream.drop 0x40) = some (dupIdRecords, [])
    ∧ (dupIdRecords.filter (fun e => e.offset = 0)).length = 0
    ∧ (1 : Nat) ≠ 2 - 0 := by
  exact ⟨by decide, by decide, by decide, by decide⟩

/-- Witness for C8 at the stream whose second record is all zeros: one
surviving entry, reported count 2, one zero-offset record. -/
theorem C8_zero_offset_records_dropped_witness :
    ((survivors zeroRecRecords).map MagesEntry.id).Nodup ∧
    zeroRecArchive.iter.length
      = zeroRecArchive.reported_entry_count
        - (zeroRecRecords.filter (fun e => e.offset = 0)).length := by
  have h := C8_zero_offset_records_dropped zeroRecStream ⟨MPK_SIG, 0, 1, 2⟩
    (zeroRecStream.drop 0x40) [] zeroRecArchive zeroRecRecords (by decide)
    (by decide) (by decide)
  exact ⟨by decide, h.2 (by decide)⟩

/-- C9 (counterexample): the fixture archive already satisfies the claimed
alignment convention (its only entry is the first), yet repacking it with
an empty replacement list moves the entry to 0x800, so the output differs
from the original inside the entry table — at bytes 0x44..0x48, the
record's offset field, well before any trailing padding: the original
holds 0x40 and the repacked stream holds 0x800. -/
theorem C9_empty_repack_not_identical_cex :
    repackedA0.map (fun p => (p.1.data.drop 0x44).take 4) = some [0, 8, 0, 0]
    ∧ (fixtureV1.drop 0x44).take 4 = [64, 0, 0, 0]
    ∧ ([0, 8, 0, 0] : List Byte) ≠ [64, 0, 0, 0] := by
  refine ⟨?_, by decide, by decide⟩
  rw [repackedA0_eq, Option.map_some']
  simp only [Option.some.injEq]
  rw [List.append_assoc headerA recCopy (List.replicate 1728 0 ++ copiedA),
    List.drop_append_eq_append_drop,
    List.drop_eq_nil_of_le (by rw [headerA_length]; norm_num), headerA_length,
    List.nil_append, show (0x44 - 64 : Nat) = 4 from by norm_num,
    List.drop_append_eq_append_drop, recCopy_length,
    show (4 - 256 : Nat) = 0 from by norm_num, List.drop_zero,
    List.take_append_of_le_length (by rw [List.length_drop, recCopy_length]; norm_num)]
  decide

/-- C9 (amended): the byte-identity holds once every entry offset,
including the first, is 2048-aligned: repacking the aligned fixture
archive (single entry at 0x800, canonical zero padding) with an empty
replacement list reproduces the original byte stream exactly. -/
theorem C9_aligned_fixture_roundtrip :
    repackedB.map (fun p => p.1.data) = some fixtureV1Aligned := by
  rw [repackedB_eq, Option.map_some']

/-- C10: duplicate entry ids are resolved last-write-wins in place: the
entry map's keys are exactly the surviving record ids in order of first
appearance (each id once), and the value stored for an id carries the
fields of the last surviving record with that id.  Iteration order can
therefore differ from the on-disk order of the surviving records. -/
theorem C10_duplicate_ids_last_write_wins :
    ∀ (s : List Byte) (hd : MpkHeader) (rest rest2 : List Byte) (a : MagesArchive)
      (rs : List MagesEntry),
    decodeMpkHeader s = some (hd, rest) →
    MagesArchive.build s = some a →
    decodeRecords (hd.ver_major == 1) hd.entry_count rest = some (rs, rest2) →
    (a.entries.map Prod.fst).Nodup
    ∧ a.entries.map Prod.fst = firstAppearanceIds (survivors rs)
    ∧ ∀ k, getIM a.entries k = lastWithId (survivors rs) k := by
  intro s hd rest rest2 a rs hh hb hr
  obtain ⟨hent, hcount⟩ := build_entries_eq hh hb hr
  refine ⟨?_, ?_, ?_⟩
  · rw [hent, keys_foldl_insertIM, List.map_nil, ← List.foldl_map]
    exact nodup_foldl_insertKey _ _ List.nodup_nil
  · rw [hent, keys_foldl_insertIM]
    rfl
  · intro k
    rw [hent, getIM_foldl_insertIM]
    cases h : lastWithId (survivors rs) k <;> simp [getIM, List.find?_nil]

/-- Witness for C10 at the duplicate-id stream: one entry under id 5,
holding the second (later) record's fields. -/
theorem C10_duplicate_ids_last_write_wins_witness :
    (dupIdArchive.entries.map Prod.fst).Nodup
    ∧ dupIdArchive.entries.map Prod.fst = firstAppearanceIds (survivors dupIdRecords)
    ∧ getIM dupIdArchive.entries 5 = lastWithId (survivors dupIdRecords) 5 := by
  have h := C10_duplicate_ids_last_write_wins dupIdStream ⟨MPK_SIG, 0, 1, 2⟩
    (dupIdStream.drop 0x40) [] dupIdArchive dupIdRecords (by decide) (by decide)
    (by decide)
  exact ⟨h.1, h.2.1, h.2.2 5⟩

end Ungelify
